/-
Verification of the fractal-renderer core (escape-time evaluator, viewport
mapping, pixel colorizer, fern accumulator, image buffer) against its
natural-language specification.

The Rust source (src/lib.rs) is shallowly embedded: `f64` is modelled by `ℚ`
(exact arithmetic; the claims under study concern algebraic structure, not
floating-point rounding), `u8`/`u32`/`usize` by `ℕ`, and the saturating
truncating casts `as u8` / `as usize` by explicit floor-and-clamp functions.
The transcendental functions `sqrt` and `log2` (used only by the smoothing
branch of the colorizer) are passed in as abstract parameters, and the
`SmallRng` entropy stream of the fern accumulator as an abstract sequence of
draws `ℕ → ℚ`.
-/
import Mathlib

namespace FractalRenderer

/-- Embeds the Rust saturating, truncating `f64 as u8` cast: truncation toward
zero, clamped into `[0, 255]` (for the rational model; NaN does not arise). -/
def satCast8 (q : ℚ) : ℕ := min 255 (max 0 ⌊q⌋).toNat

/-- Embeds the Rust saturating, truncating `f64 as usize` cast: negative values
clamp to zero, positive values truncate toward zero. -/
def satCastUsize (q : ℚ) : ℕ := (max 0 ⌊q⌋).toNat

/-- Rust `struct RGB { r: u8, g: u8, b: u8 }`. Channels are modelled by `ℕ`; every
store goes through `satCast8`, which lands in `[0, 255]`. -/
structure RGB where
  r : ℕ
  g : ℕ
  b : ℕ
deriving DecidableEq, Repr

/-- Rust `RGB::new(r: u8, b: u8, g: u8) -> Self { Self { r, g, b } }` — embedded
with the exact (swapped) parameter order of the source: the second parameter is
named `b` and the third `g`, while the body uses field-init shorthand, so
`RGB.new x y z = { r := x, g := z, b := y }`. -/
def RGB.new (r b g : ℕ) : RGB := { r := r, g := g, b := b }

/-- Rust `const BLACK: RGB = RGB::new(0, 0, 0)`. -/
def BLACK : RGB := RGB.new 0 0 0

/-- Rust `struct Imaginary { re: f64, im: f64 }`. -/
structure Imaginary where
  re : ℚ
  im : ℚ
deriving DecidableEq, Repr

/-- Rust `Imaginary::square`: `re = re·re − im·im`, `im = 2·re·im`. -/
def Imaginary.square (self : Imaginary) : Imaginary :=
  { re := self.re * self.re - self.im * self.im
    im := 2 * self.re * self.im }

/-- Rust `Imaginary::squared_distance`: `re·re + im·im`. -/
def Imaginary.squared_distance (self : Imaginary) : ℚ :=
  self.re * self.re + self.im * self.im

/-- Rust `impl Add for Imaginary`: componentwise addition. -/
def Imaginary.add (self rhs : Imaginary) : Imaginary :=
  { re := self.re + rhs.re, im := self.im + rhs.im }

instance : Add Imaginary := ⟨Imaginary.add⟩

/-- Rust `impl Mul<f64> for Imaginary`: componentwise scaling. -/
def Imaginary.scale (self : Imaginary) (rhs : ℚ) : Imaginary :=
  { re := self.re * rhs, im := self.im * rhs }

/-- The loop body of `recursive`, with `fuel = iterations − i` remaining trips:
each trip computes `next = previous.square() + c`, returns `(next, i)` when
`next.squared_distance() > squared`, else continues with `previous = next`;
when the trip count is exhausted it returns `(previous, i)` (at that point
`i = iterations`). -/
def recLoop (squared : ℚ) (c : Imaginary) : Imaginary → ℕ → ℕ → Imaginary × ℕ
  | previous, i, 0 => (previous, i)
  | previous, i, fuel + 1 =>
    let next := previous.square + c
    let dist := next.squared_distance
    if dist > squared then (next, i)
    else recLoop squared c next (i + 1) fuel

/-- Rust `pub fn recursive(iterations: u32, start: Imaginary, c: Imaginary,
limit: f64) -> (Imaginary, u32)`: `squared = limit * limit`, then the loop
`for i in 0..iterations`, finally `(previous, iterations)`. -/
def recursive (iterations : ℕ) (start c : Imaginary) (limit : ℚ) :
    Imaginary × ℕ :=
  recLoop (limit * limit) c start 0 iterations

/-- The mathematical orbit of the quadratic recurrence, used to state the
specification: `orbit start c 0 = start` and
`orbit start c (n+1) = (orbit start c n).square + c`. -/
def orbit (start c : Imaginary) : ℕ → Imaginary
  | 0 => start
  | n + 1 => (orbit start c n).square + c

theorem Imaginary.add_def (p q : Imaginary) :
    p + q = ⟨p.re + q.re, p.im + q.im⟩ := rfl

theorem orbit_shift (start c : Imaginary) (n : ℕ) :
    orbit start c (n + 1) = orbit (start.square + c) c n := by
  induction n with
  | zero => rfl
  | succ n ih =>
    calc orbit start c (n + 1 + 1) = (orbit start c (n + 1)).square + c := rfl
    _ = (orbit (start.square + c) c n).square + c := by rw [ih]
    _ = orbit (start.square + c) c (n + 1) := rfl

/-- If no step among the first `fuel` steps from `previous` escapes, the loop
runs to exhaustion and returns the last computed point with `i + fuel`. -/
theorem recLoop_bounded (squared : ℚ) (c : Imaginary) (fuel : ℕ) :
    ∀ previous i,
      (∀ j < fuel, ¬((orbit previous c (j + 1)).squared_distance > squared)) →
      recLoop squared c previous i fuel = (orbit previous c fuel, i + fuel) := by
  induction fuel with
  | zero => intro previous i _; rfl
  | succ fuel ih =>
    intro previous i h
    have h0 : ¬((previous.square + c).squared_distance > squared) := by
      have := h 0 (Nat.succ_pos _)
      simpa [orbit] using this
    simp only [recLoop, h0, if_false]
    have hrest : ∀ j < fuel,
        ¬((orbit (previous.square + c) c (j + 1)).squared_distance > squared) := by
      intro j hj
      have := h (j + 1) (Nat.succ_lt_succ hj)
      simpa [orbit_shift] using this
    rw [ih (previous.square + c) (i + 1) hrest, ← orbit_shift]
    exact Prod.ext rfl (by omega)

/-- If step `k < fuel` is the first step from `previous` whose next point
escapes, the loop returns that point with index `i + k`. -/
theorem recLoop_escape (squared : ℚ) (c : Imaginary) (fuel : ℕ) :
    ∀ previous i k, k < fuel →
      (orbit previous c (k + 1)).squared_distance > squared →
      (∀ j < k, ¬((orbit previous c (j + 1)).squared_distance > squared)) →
      recLoop squared c previous i fuel = (orbit previous c (k + 1), i + k) := by
  induction fuel with
  | zero => intro _ _ k hk; exact absurd hk (Nat.not_lt_zero k)
  | succ fuel ih =>
    intro previous i k hk hesc hmin
    match k with
    | 0 =>
      have h0 : (previous.square + c).squared_distance > squared := by
        simpa [orbit] using hesc
      simp only [recLoop, h0, if_true]
      simp [orbit]
    | k + 1 =>
      have h0 : ¬((previous.square + c).squared_distance > squared) := by
        have := hmin 0 (Nat.succ_pos _)
        simpa [orbit] using this
      simp only [recLoop, h0, if_false]
      have hesc' : (orbit (previous.square + c) c (k + 1)).squared_distance > squared := by
        rw [← orbit_shift]; exact hesc
      have hmin' : ∀ j < k,
          ¬((orbit (previous.square + c) c (j + 1)).squared_distance > squared) := by
        intro j hj
        have := hmin (j + 1) (Nat.succ_lt_succ hj)
        simpa [orbit_shift] using this
      rw [ih (previous.square + c) (i + 1) k (Nat.lt_of_succ_lt_succ hk) hesc' hmin',
        ← orbit_shift]
      exact Prod.ext rfl (by omega)

/-- C1: The escape-time evaluator `recursive` follows the orbit
`next = square(previous) + c` from `previous = start`: if step `i < N` is the
first whose next point has squared magnitude exceeding `limit²`, it returns
`(next, i)` with `i` the 0-based step index; if none of the `N` steps escapes
it returns the last computed point paired with `N`. -/
theorem recursive_spec (N : ℕ) (start c : Imaginary) (limit : ℚ) :
    (∀ i < N, (orbit start c (i + 1)).squared_distance > limit ^ 2 →
      (∀ j < i, ¬((orbit start c (j + 1)).squared_distance > limit ^ 2)) →
      recursive N start c limit = (orbit start c (i + 1), i)) ∧
    ((∀ j < N, ¬((orbit start c (j + 1)).squared_distance > limit ^ 2)) →
      recursive N start c limit = (orbit start c N, N)) := by
  have hsq : limit ^ 2 = limit * limit := sq limit
  constructor
  · intro i hi hesc hmin
    have := recLoop_escape (limit * limit) c N start 0 i hi
      (by rw [← hsq]; exact hesc)
      (by intro j hj; rw [← hsq]; exact hmin j hj)
    simpa [recursive] using this
  · intro h
    have := recLoop_bounded (limit * limit) c N start 0
      (by intro j hj; rw [← hsq]; exact h j hj)
    simpa [recursive] using this

/-- Witness for C1 at a concrete input: starting at `(3,0)` with `c = (0,0)`
and `limit = 2`, the first step lands at `(9,0)` with `81 > 4`, so the
evaluator escapes at step index 0. -/
theorem recursive_spec_witness :
    recursive 1 ⟨3, 0⟩ ⟨0, 0⟩ 2 = (orbit ⟨3, 0⟩ ⟨0, 0⟩ 1, 0) :=
  (recursive_spec 1 ⟨3, 0⟩ ⟨0, 0⟩ 2).1 0 (by norm_num)
    (by
      show (orbit ⟨3, 0⟩ ⟨0, 0⟩ (0 + 1)).squared_distance > (2 : ℚ) ^ 2
      simp only [orbit, Imaginary.square, Imaginary.add_def,
        Imaginary.squared_distance]
      norm_num)
    (fun j hj => absurd hj (Nat.not_lt_zero j))

/-- C7: `square` agrees with the analytic complex square
`(re² − im², 2·re·im)` and `squared_distance` is nonnegative. -/
theorem square_analytic_and_squared_distance_nonneg (p : Imaginary) :
    p.square = ⟨p.re ^ 2 - p.im ^ 2, 2 * p.re * p.im⟩ ∧
      0 ≤ p.squared_distance := by
  refine ⟨?_, add_nonneg (mul_self_nonneg _) (mul_self_nonneg _)⟩
  simp only [Imaginary.square, Imaginary.mk.injEq]
  exact ⟨by ring, trivial⟩

/-- C10: With an iteration cap of 0 the evaluator returns `(start, 0)`
for every start, constant and limit: the start point is never compared
against the escape limit. -/
theorem recursive_zero_cap (start c : Imaginary) (limit : ℚ) :
    recursive 0 start c limit = (start, 0) := rfl

/-- The orbit of the origin under `c = (0,0)` stays at the origin. -/
theorem orbit_origin (n : ℕ) :
    orbit ⟨0, 0⟩ ⟨0, 0⟩ n = ⟨0, 0⟩ := by
  induction n with
  | zero => rfl
  | succ n ih =>
    simp only [orbit, ih]
    show Imaginary.add (Imaginary.square ⟨0, 0⟩) ⟨0, 0⟩ = ⟨0, 0⟩
    simp [Imaginary.square, Imaginary.add]

/-- C6: For every cap `N ≥ 1` and positive limit, the evaluator started
at the origin with `c = (0,0)` runs the full cap without escaping and returns
iteration count `N` (with the origin as final point). -/
theorem recursive_origin_full_cap (N : ℕ) (limit : ℚ)
    (hN : 1 ≤ N) (hlimit : 0 < limit) :
    recursive N ⟨0, 0⟩ ⟨0, 0⟩ limit = (⟨0, 0⟩, N) := by
  have h := recLoop_bounded (limit * limit) ⟨0, 0⟩ N ⟨0, 0⟩ 0 ?_
  · rw [recursive, h, orbit_origin, Nat.zero_add]
  · intro j _
    rw [orbit_origin]
    simp only [Imaginary.squared_distance, gt_iff_lt, not_lt]
    nlinarith [mul_pos hlimit hlimit]

/-- Witness for C6: with cap 3 and limit 1 the evaluator returns the origin
and count 3. -/
theorem recursive_origin_full_cap_witness :
    recursive 3 ⟨0, 0⟩ ⟨0, 0⟩ 1 = (⟨0, 0⟩, 3) :=
  recursive_origin_full_cap 3 1 (by decide) (by norm_num)

/-- Rust `enum Algo { Mandelbrot, BarnsleyFern, Julia(Imaginary) }`. -/
inductive Algo where
  | Mandelbrot
  | BarnsleyFern
  | Julia (c : Imaginary)
deriving DecidableEq, Repr

/-- Rust `struct Config` (the render configuration; the `filename`, `open` and
`gui` fields drive only the excluded file-output/GUI glue and are omitted). -/
structure Config where
  width : ℕ
  height : ℕ
  iterations : Option ℕ
  limit : ℚ
  stable_limit : ℚ
  pos : Imaginary
  scale : Imaginary
  exposure : ℚ
  inside : Bool
  smooth : Bool
  primary_color : Option RGB
  secondary_color : Option RGB
  algo : Algo
  color_weight : ℚ

/-- Rust `Config::iterations()`: the configured cap, defaulting to 50 for
Mandelbrot/Julia and 10 000 000 for the fern. (Named `iterationsValue`
because the field is already called `iterations`.) -/
def Config.iterationsValue (self : Config) : ℕ :=
  match self.iterations with
  | some iters => iters
  | none =>
    match self.algo with
    | .Mandelbrot | .Julia _ => 50
    | .BarnsleyFern => 10000000

/-- Rust `Config::primary_color()`: the configured color, defaulting to
`RGB::new(40, 40, 255)` for Mandelbrot/Julia and `RGB::new(4, 100, 3)` for
the fern. -/
def Config.primaryColor (self : Config) : RGB :=
  match self.primary_color with
  | some color => color
  | none =>
    match self.algo with
    | .Mandelbrot | .Julia _ => RGB.new 40 40 255
    | .BarnsleyFern => RGB.new 4 100 3

/-- Rust `Config::secondary_color()`: the configured color, defaulting to
`RGB::new(240, 170, 0)` for Mandelbrot/Julia and `RGB::new(240, 240, 240)`
for the fern. -/
def Config.secondaryColor (self : Config) : RGB :=
  match self.secondary_color with
  | some color => color
  | none =>
    match self.algo with
    | .Mandelbrot | .Julia _ => RGB.new 240 170 0
    | .BarnsleyFern => RGB.new 240 240 240

/-- Rust `fn coord_to_space(coord, max, offset, pos, scale) -> f64`. -/
def coord_to_space (coord max offset pos scale : ℚ) : ℚ :=
  ((coord / max) - offset) / scale + pos

/-- Rust `fn xy_to_imaginary(x, y, width, height, pos, scale) -> Imaginary`. -/
def xy_to_imaginary (x y : ℕ) (width height : ℚ)
    (pos scale : Imaginary) : Imaginary :=
  { re := coord_to_space x height ((width / height) / 2) pos.re scale.re
    im := coord_to_space y height 0.5 pos.im scale.im }

/-- C4: The viewport mapping sends pixel `(x, y)` to
`re = ((x/H) − (W/H)/2)/S.re + P.re` and `im = ((y/H) − 0.5)/S.im + P.im`:
both axes are normalized by the height `H`, the width entering only the
horizontal centering term. -/
theorem xy_to_imaginary_spec (x y : ℕ) (W H : ℚ) (P S : Imaginary) :
    xy_to_imaginary x y W H P S =
      ⟨(((x : ℚ) / H) - (W / H) / 2) / S.re + P.re,
        (((y : ℚ) / H) - 0.5) / S.im + P.im⟩ := rfl

/-- Rust `struct Image` over its backing slice: `contents`, `width`, `height`. -/
structure Image where
  contents : List RGB
  width : ℕ
  height : ℕ
deriving DecidableEq, Repr

/-- Rust `Image::new`. -/
def Image.new (contents : List RGB) (width height : ℕ) : Image :=
  { contents := contents, width := width, height := height }

/-- Rust `Image::pixel_mut(x, y) -> Option<&mut RGB>`, modelled as the flat index
the returned reference addresses: `None` when `x > width` fails to hold...
precisely, `None` when `x > width`, `None` when `contents.len() < index`
(`index = y * width + x`), and otherwise whatever `contents.get_mut(index)`
yields (`Some index` exactly when `index < contents.len()`). -/
def Image.pixel_mut (self : Image) (x y : ℕ) : Option ℕ :=
  if x > self.width then none
  else
    let index := y * self.width + x
    if self.contents.length < index then none
    else if index < self.contents.length then some index else none

/-- A write through `pixel_mut`
(`if let Some(p) = image.pixel_mut(x, y) { *p = v }`): a no-op when the
pixel is absent, otherwise it replaces the addressed slot. -/
def Image.setPixel (self : Image) (x y : ℕ) (v : RGB) : Image :=
  match self.pixel_mut x y with
  | none => self
  | some index => { self with contents := self.contents.set index v }

/-- Rust `Image::subtract_pixel(x, y, value, amount)`: fetch the pixel through
`pixel_mut` (early return when absent), then per source line replace it by
`RGB::new(old.r·1/(((1/(value.r/255))−1)·amount+1) as u8, old.g·…, old.b·…)`
— note the arguments are passed positionally into the swapped
parameter order of `RGB.new`. -/
def Image.subtract_pixel (self : Image) (x y : ℕ) (value : RGB)
    (amount : ℚ) : Image :=
  match self.pixel_mut x y with
  | none => self
  | some index =>
    let pixel := self.contents.getD index BLACK
    let new := RGB.new
      (satCast8 ((pixel.r : ℚ) * 1 /
        ((((1 / ((value.r : ℚ) / 255)) - 1) * amount) + 1)))
      (satCast8 ((pixel.g : ℚ) * 1 /
        ((((1 / ((value.g : ℚ) / 255)) - 1) * amount) + 1)))
      (satCast8 ((pixel.b : ℚ) * 1 /
        ((((1 / ((value.b : ℚ) / 255)) - 1) * amount) + 1)))
    { self with contents := self.contents.set index new }

/-- C2 counterexample: On a 2×2 buffer a blend write at
`(x = width, y = 0)` is not a no-op: the bounds check `x > width` lets
`x = width` through and flat index `width` (= first pixel of row 1) is
rewritten. -/
theorem write_at_width_row0_not_noop :
    Image.subtract_pixel
        (Image.new [⟨100, 100, 100⟩, ⟨100, 100, 100⟩,
          ⟨100, 100, 100⟩, ⟨100, 100, 100⟩] 2 2) 2 0 ⟨51, 51, 51⟩ 1 ≠
      Image.new [⟨100, 100, 100⟩, ⟨100, 100, 100⟩,
        ⟨100, 100, 100⟩, ⟨100, 100, 100⟩] 2 2 := by
  have h : Image.subtract_pixel
      (Image.new [⟨100, 100, 100⟩, ⟨100, 100, 100⟩,
        ⟨100, 100, 100⟩, ⟨100, 100, 100⟩] 2 2) 2 0 ⟨51, 51, 51⟩ 1 =
      Image.new [⟨100, 100, 100⟩, ⟨100, 100, 100⟩,
        ⟨20, 20, 20⟩, ⟨100, 100, 100⟩] 2 2 := by
    simp only [Image.subtract_pixel, Image.pixel_mut, Image.new]
    norm_num [List.getD, satCast8, RGB.new, List.set]
    decide
  rw [h]
  decide

/-- C2 amended: A pixel write at `(x = width, y = 0)` never fails: it
is a no-op when the buffer holds at most `width` cells (e.g. height ≤ 1),
but on a longer buffer it instead rewrites the slot at flat index `width`,
the first pixel of row 1. -/
theorem setPixel_at_width_row0 (img : Image) (v : RGB) :
    (img.contents.length ≤ img.width →
      img.setPixel img.width 0 v = img) ∧
    (img.width < img.contents.length →
      img.setPixel img.width 0 v =
        { img with contents := img.contents.set img.width v }) := by
  constructor
  · intro hle
    simp only [Image.setPixel, Image.pixel_mut]
    rw [if_neg (lt_irrefl img.width), Nat.zero_mul, Nat.zero_add]
    rcases Nat.lt_or_ge img.contents.length img.width with hlt | hge
    · rw [if_pos hlt]
    · have heq : img.contents.length = img.width := Nat.le_antisymm hle hge
      rw [if_neg (by omega), if_neg (by omega)]
  · intro hlt
    simp only [Image.setPixel, Image.pixel_mut]
    rw [if_neg (lt_irrefl img.width), Nat.zero_mul, Nat.zero_add,
      if_neg (by omega), if_pos hlt]

/-- Witness for the amended C2: on a 1×1 buffer the write at `(1, 0)` is a
no-op, and on a 2×2 buffer the write at `(2, 0)` rewrites flat index 2. -/
theorem setPixel_at_width_row0_witness :
    Image.setPixel (Image.new [⟨1, 2, 3⟩] 1 1) 1 0 ⟨7, 7, 7⟩ =
        Image.new [⟨1, 2, 3⟩] 1 1 ∧
      Image.setPixel (Image.new [⟨1, 2, 3⟩, ⟨1, 2, 3⟩,
          ⟨1, 2, 3⟩, ⟨1, 2, 3⟩] 2 2) 2 0 ⟨7, 7, 7⟩ =
        Image.new [⟨1, 2, 3⟩, ⟨1, 2, 3⟩, ⟨7, 7, 7⟩, ⟨1, 2, 3⟩] 2 2 :=
  ⟨(setPixel_at_width_row0 (Image.new [⟨1, 2, 3⟩] 1 1) ⟨7, 7, 7⟩).1
      (by decide),
    (setPixel_at_width_row0 (Image.new [⟨1, 2, 3⟩, ⟨1, 2, 3⟩,
        ⟨1, 2, 3⟩, ⟨1, 2, 3⟩] 2 2) ⟨7, 7, 7⟩).2 (by decide)⟩

/-- C9: With width ≥ 1, `y + 1 < height` and a `width·height` buffer,
the lookup at `(x = width, y)` is not absent: it addresses flat index
`(y+1)·width` — column 0 of row `y+1` — and a write at `x = width` modifies
exactly that slot. -/
theorem pixel_mut_at_width_wraps (img : Image) (y : ℕ) (v : RGB)
    (hw : 1 ≤ img.width) (hy : y + 1 < img.height)
    (hlen : img.contents.length = img.width * img.height) :
    img.pixel_mut img.width y = some ((y + 1) * img.width) ∧
    (img.setPixel img.width y v).contents =
      img.contents.set ((y + 1) * img.width) v := by
  have hidx : y * img.width + img.width = (y + 1) * img.width := by ring
  have hlt : (y + 1) * img.width < img.contents.length := by
    rw [hlen, Nat.mul_comm img.width img.height]
    exact Nat.mul_lt_mul_of_lt_of_le hy (Nat.le_refl _) (by omega)
  have hpix : img.pixel_mut img.width y = some ((y + 1) * img.width) := by
    simp only [Image.pixel_mut]
    rw [if_neg (lt_irrefl img.width), hidx, if_neg (by omega), if_pos hlt]
  refine ⟨hpix, ?_⟩
  simp only [Image.setPixel, hpix]

/-- Witness for C9: in a 2×3 buffer, the lookup at `(2, 1)` addresses flat
index 4 and a write there sets slot 4. -/
theorem pixel_mut_at_width_wraps_witness :
    Image.pixel_mut (Image.new [⟨0, 0, 0⟩, ⟨0, 0, 0⟩, ⟨0, 0, 0⟩,
        ⟨0, 0, 0⟩, ⟨0, 0, 0⟩, ⟨0, 0, 0⟩] 2 3) 2 1 = some 4 ∧
      (Image.setPixel (Image.new [⟨0, 0, 0⟩, ⟨0, 0, 0⟩, ⟨0, 0, 0⟩,
          ⟨0, 0, 0⟩, ⟨0, 0, 0⟩, ⟨0, 0, 0⟩] 2 3) 2 1 ⟨8, 8, 8⟩).contents =
        [⟨0, 0, 0⟩, ⟨0, 0, 0⟩, ⟨0, 0, 0⟩,
          ⟨0, 0, 0⟩, ⟨0, 0, 0⟩, ⟨0, 0, 0⟩].set 4 ⟨8, 8, 8⟩ :=
  pixel_mut_at_width_wraps
    (Image.new [⟨0, 0, 0⟩, ⟨0, 0, 0⟩, ⟨0, 0, 0⟩,
      ⟨0, 0, 0⟩, ⟨0, 0, 0⟩, ⟨0, 0, 0⟩] 2 3) 1 ⟨8, 8, 8⟩
    (by decide) (by decide) (by decide)

/-- Rust `fn color_multiply(color: RGB, mult: f64) -> RGB`:
`RGB::new(color.r·mult as u8, color.g·mult as u8, color.b·mult as u8)`,
passed positionally into the swapped parameter order of `RGB.new`. -/
def color_multiply (color : RGB) (mult : ℚ) : RGB :=
  RGB.new (satCast8 ((color.r : ℚ) * mult))
    (satCast8 ((color.g : ℚ) * mult))
    (satCast8 ((color.b : ℚ) * mult))

/-- The coloring tail of `get_recursive_pixel` (from `let dist = …` on):
outside pixels (`dist > stable_limit`) get `primary_color` scaled by
`mult = iters / iterations * exposure` with the optional smoothing
correction `iters += 1 − log2(log2(sqrt(dist)) / 2)`; inside pixels get
`secondary_color * dist` when the `inside` flag is set and `BLACK`
otherwise. `sqrt` and `log2` are the abstract transcendental parameters. -/
def colorize (sqrt log2 : ℚ → ℚ) (cfg : Config) (mandelbrot : Imaginary)
    (iters : ℕ) : RGB :=
  let dist := mandelbrot.squared_distance
  if dist > cfg.stable_limit then
    let iters : ℚ := iters
    let iters := if cfg.smooth then
        let log_zn := log2 (sqrt dist) / 2
        let nu := log2 log_zn
        iters + (1 - nu)
      else iters
    let mult := iters / (cfg.iterationsValue : ℚ) * cfg.exposure
    color_multiply cfg.primaryColor mult
  else if cfg.inside then
    color_multiply cfg.secondaryColor dist
  else BLACK

/-- Rust `fn get_recursive_pixel(config, x, y) -> RGB`: viewport-map the pixel,
run the escape-time evaluator (`c = start` for Mandelbrot, the configured
seed for Julia), colorize. The `BarnsleyFern` arm panics in the source
(`unreachable`), embedded as `none`. -/
def get_recursive_pixel (sqrt log2 : ℚ → ℚ) (cfg : Config) (x y : ℕ) :
    Option RGB :=
  let start := xy_to_imaginary x y cfg.width cfg.height cfg.pos cfg.scale
  match cfg.algo with
  | .Mandelbrot =>
    let res := recursive cfg.iterationsValue start start cfg.limit
    some (colorize sqrt log2 cfg res.1 res.2)
  | .Julia c =>
    let res := recursive cfg.iterationsValue start c cfg.limit
    some (colorize sqrt log2 cfg res.1 res.2)
  | .BarnsleyFern => none

/-- The configuration used to exhibit the C3 failing input: one iteration,
exposure 1, smoothing off, primary color `(r=10, g=20, b=30)`. -/
def c3cfg : Config :=
  { width := 1, height := 1, iterations := some 1, limit := 4
    stable_limit := 1, pos := ⟨0, 0⟩, scale := ⟨1, 1⟩, exposure := 1
    inside := true, smooth := false, primary_color := some ⟨10, 20, 30⟩
    secondary_color := none, algo := .Mandelbrot, color_weight := 1 }

/-- C3, code evaluated at the failing input: For the escape result
`((2, 0), 1)` under `c3cfg`, `dist = 4 > stable_limit = 1` and
`mult = 1/1·1 = 1`, so the claim predicts output `primary_color · 1 =
(r=10, g=20, b=30)`; the code instead returns `(r=10, g=30, b=20)`:
`color_multiply` passes `(r, g, b)` positionally into `RGB::new`, whose
parameter order is `(r, b, g)`, swapping the green and blue channels. -/
theorem colorize_swaps_green_blue :
    colorize id id c3cfg ⟨2, 0⟩ 1 = ⟨10, 30, 20⟩ := by
  simp only [colorize, Imaginary.squared_distance, c3cfg,
    Config.primaryColor, Config.iterationsValue, color_multiply, RGB.new,
    satCast8]
  norm_num
  decide

/-- C5, code evaluated at the failing input: Blending value
`(r=51, g=102, b=255)` with amount 1 into the single pixel `(200, 100, 50)`
yields `(r=40, g=50, b=40)`, while the claimed per-channel law predicts
`(r=40, g=40, b=50)` (`200/5 = 40`, `100/(5/2) = 40`, `50/1 = 50`): the
green slot receives the computation for the blue channel and vice versa, through
the swapped parameter order of `RGB::new`. -/
theorem subtract_pixel_swaps_green_blue :
    Image.subtract_pixel (Image.new [⟨200, 100, 50⟩] 1 1) 0 0
        ⟨51, 102, 255⟩ 1 =
      Image.new [⟨40, 50, 40⟩] 1 1 := by
  simp only [Image.subtract_pixel, Image.pixel_mut, Image.new]
  norm_num [List.getD, satCast8, RGB.new, List.set]
  decide

/-- The per-iteration body of `fern`: a blend write at the affinely mapped
pixel coordinate, then one of the four Barnsley maps chosen by the random
draw `rand k` against the cumulative thresholds 0.01 / 0.86 / 0.93. `fuel`
is the number of remaining iterations. -/
def fernLoop (cfg : Config) (rand : ℕ → ℚ)
    (effective_scale_x effective_scale_y width height : ℚ) (color : RGB) :
    ℕ → ℕ → ℚ → ℚ → Image → Image
  | 0, _, _, _, image => image
  | fuel + 1, k, x, y, image =>
    let image := image.subtract_pixel
      (satCastUsize (((x - cfg.pos.re) * effective_scale_x) + width / 2))
      (satCastUsize (height -
        ((y + (cfg.pos.im - 5) - 0.5) * effective_scale_y + height / 2)))
      color cfg.color_weight
    let r := rand k
    if r < 0.01 then
      fernLoop cfg rand effective_scale_x effective_scale_y width height
        color fuel (k + 1) (0 * x + 0 * y) (0 * x + 0.16 * y + 0) image
    else if r < 0.86 then
      fernLoop cfg rand effective_scale_x effective_scale_y width height
        color fuel (k + 1) (0.85 * x + 0.04 * y)
        (-0.04 * x + 0.85 * y + 1.60) image
    else if r < 0.93 then
      fernLoop cfg rand effective_scale_x effective_scale_y width height
        color fuel (k + 1) (0.20 * x - 0.26 * y)
        (0.23 * x + 0.22 * y + 1.60) image
    else
      fernLoop cfg rand effective_scale_x effective_scale_y width height
        color fuel (k + 1) (-0.15 * x + 0.28 * y)
        (0.26 * x + 0.24 * y + 0.44) image

/-- Rust `fn fern(config, image)`: start the walk at `pos * (width, height)`,
fix the empirical effective scales `65·scale.re·height·0.006` and
`37·scale.im·height·0.006`, and iterate `config.iterations()` times. The
`SmallRng` entropy stream is abstracted as `rand : ℕ → ℚ`. -/
def fern (rand : ℕ → ℚ) (cfg : Config) (image : Image) : Image :=
  let width : ℚ := cfg.width
  let height : ℚ := cfg.height
  let x := cfg.pos.re * width
  let y := cfg.pos.im * height
  let effective_scale_x := 65 * cfg.scale.re * (cfg.height : ℚ) * 0.006
  let effective_scale_y := 37 * cfg.scale.im * (cfg.height : ℚ) * 0.006
  let color := cfg.primaryColor
  fernLoop cfg rand effective_scale_x effective_scale_y width height color
    cfg.iterationsValue 0 x y image

/-- Rust `pub fn get_image(config) -> Vec<RGB>`: for Mandelbrot/Julia, the rows
`y ∈ 0..height` of pixels `x ∈ 0..width` (panics inside a row propagate as
`none`); for the fern, a buffer pre-filled with `secondary_color` handed to
`fern`. -/
def get_image (sqrt log2 : ℚ → ℚ) (rand : ℕ → ℚ) (cfg : Config) :
    Option (List RGB) :=
  match cfg.algo with
  | .Mandelbrot | .Julia _ =>
    ((List.range cfg.height).mapM fun y =>
      (List.range cfg.width).mapM fun x =>
        get_recursive_pixel sqrt log2 cfg x y).map List.flatten
  | .BarnsleyFern =>
    let contents := List.replicate (cfg.width * cfg.height) cfg.secondaryColor
    let image := Image.new contents cfg.width cfg.height
    some (fern rand cfg image).contents

/-- C8: With algorithm `BarnsleyFern` and an iteration cap of 0, the
render returns the pre-fill untouched: every one of the `width·height`
pixels equals `secondary_color`; the accumulation loop performs no
writes. -/
theorem fern_zero_iterations (cfg : Config) (sqrt log2 : ℚ → ℚ)
    (rand : ℕ → ℚ)
    (halgo : cfg.algo = Algo.BarnsleyFern)
    (hiters : cfg.iterations = some 0) :
    get_image sqrt log2 rand cfg =
      some (List.replicate (cfg.width * cfg.height) cfg.secondaryColor) := by
  rcases cfg with ⟨w, h, it, lim, sl, pos, scale, expo, ins, sm, pc, sc, algo, cw⟩
  simp only at halgo hiters
  subst halgo
  subst hiters
  simp only [get_image, fern, Config.iterationsValue, fernLoop, Image.new]

/-- The configuration used in the C8 witness: a 2×2 fern render with cap 0
and secondary color `(9, 8, 7)`. -/
def c8cfg : Config :=
  { width := 2, height := 2, iterations := some 0, limit := 4
    stable_limit := 2, pos := ⟨0, 0⟩, scale := ⟨1, 1⟩, exposure := 1
    inside := true, smooth := false, primary_color := none
    secondary_color := some ⟨9, 8, 7⟩, algo := .BarnsleyFern
    color_weight := 1 }

/-- Witness for C8: the concrete 2×2 cap-0 fern render is four copies of
the secondary color. -/
theorem fern_zero_iterations_witness :
    get_image id id (fun _ => 0) c8cfg = some (List.replicate 4 ⟨9, 8, 7⟩) := by
  have h := fern_zero_iterations c8cfg id id (fun _ => 0) rfl rfl
  simpa [c8cfg, Config.secondaryColor] using h

end FractalRenderer
